import Mathlib

/-! Shallow embedding of the ERS RAG pipeline (src/app.py). -/

/-- Chunk metadata mapping: the three keys read by the program; a missing key
is `none` (the Python dict lacks the key). Values are their str renderings. -/
structure Metadata where
  source : Option String
  page : Option String
  type : Option String
deriving DecidableEq

/-- Source citation record {source, page, type} as built at answer time. -/
structure Citation where
  source : String
  page : String
  type : String
deriving DecidableEq

/-- UTF-8 encoding of one Unicode scalar value, as a list of byte values. -/
def utf8Char (c : Char) : List Nat :=
  let n := c.toNat
  if n < 128 then [n]
  else if n < 2048 then [192 + n / 64, 128 + n % 64]
  else if n < 65536 then [224 + n / 4096, 128 + (n / 64) % 64, 128 + n % 64]
  else [240 + n / 262144, 128 + (n / 4096) % 64, 128 + (n / 64) % 64, 128 + n % 64]

/-- UTF-8 encoding of a string (Python str.encode of a str). -/
def utf8Encode (s : String) : List Nat :=
  (s.data.map utf8Char).flatten

/-- Left-rotation of a 32-bit word held in a Nat. -/
def rotl (b n : Nat) : Nat :=
  ((n <<< b) % 4294967296) ||| (n >>> (32 - b))

/-- SHA-1 round function, by round index. -/
def fFun (t b c d : Nat) : Nat :=
  if t < 20 then (b &&& c) ||| ((4294967295 ^^^ b) &&& d)
  else if t < 40 then b ^^^ c ^^^ d
  else if t < 60 then (b &&& c) ||| (b &&& d) ||| (c &&& d)
  else b ^^^ c ^^^ d

/-- SHA-1 round constant, by round index. -/
def kConst (t : Nat) : Nat :=
  if t < 20 then 1518500249
  else if t < 40 then 1859775393
  else if t < 60 then 2400959708
  else 3395469782

/-- Big-endian byte rendering of a value into n bytes. -/
def bytesBE (n v : Nat) : List Nat :=
  (List.range n).map (fun i => (v >>> (8 * (n - 1 - i))) % 256)

/-- SHA-1 message padding: append 0x80, zeros to 56 mod 64, then the 64-bit
big-endian bit length. -/
def padMsg (msg : List Nat) : List Nat :=
  let ml := msg.length
  let k := (120 - ((ml + 1) % 64)) % 64
  msg ++ [128] ++ List.replicate k 0 ++ bytesBE 8 (8 * ml)

/-- Group four bytes at a time into big-endian 32-bit words. -/
def wordsOf : List Nat → List Nat
  | b0 :: b1 :: b2 :: b3 :: rest => (((b0 * 256 + b1) * 256 + b2) * 256 + b3) :: wordsOf rest
  | _ => []

/-- Split a byte list into 64-byte blocks, with fuel for structural recursion. -/
def splitBlocksGo : Nat → List Nat → List (List Nat)
  | 0, _ => []
  | fuel + 1, l => if l = [] then [] else l.take 64 :: splitBlocksGo fuel (l.drop 64)

/-- Split a byte list into 64-byte blocks. -/
def splitBlocks (l : List Nat) : List (List Nat) :=
  splitBlocksGo l.length l

/-- Extend the 16-word schedule by one word. -/
def wstep (w : List Nat) : List Nat :=
  w ++ [rotl 1 ((w.getD (w.length - 3) 0) ^^^ (w.getD (w.length - 8) 0) ^^^
                (w.getD (w.length - 14) 0) ^^^ (w.getD (w.length - 16) 0))]

/-- Apply wstep the given number of times. -/
def extendW : Nat → List Nat → List Nat
  | 0, w => w
  | k + 1, w => extendW k (wstep w)

/-- SHA-1 chaining state. -/
structure H5 where
  a : Nat
  b : Nat
  c : Nat
  d : Nat
  e : Nat
deriving DecidableEq

/-- One SHA-1 compression round. -/
def sha1Round (w : List Nat) (st : H5) (t : Nat) : H5 :=
  let temp := (rotl 5 st.a + fFun t st.b st.c st.d + st.e + kConst t + w.getD t 0) % 4294967296
  ⟨temp, st.a, rotl 30 st.b, st.c, st.d⟩

/-- SHA-1 compression of one 64-byte block. -/
def processBlock (h : H5) (block : List Nat) : H5 :=
  let w := extendW 64 (wordsOf block)
  let f := (List.range 80).foldl (sha1Round w) h
  ⟨(h.a + f.a) % 4294967296, (h.b + f.b) % 4294967296, (h.c + f.c) % 4294967296,
   (h.d + f.d) % 4294967296, (h.e + f.e) % 4294967296⟩

/-- SHA-1 digest of a byte list, as 20 bytes. -/
def sha1Bytes (msg : List Nat) : List Nat :=
  let f := (splitBlocks (padMsg msg)).foldl processBlock
    ⟨1732584193, 4023233417, 2562383102, 271733878, 3285377520⟩
  bytesBE 4 f.a ++ bytesBE 4 f.b ++ bytesBE 4 f.c ++ bytesBE 4 f.d ++ bytesBE 4 f.e

/-- Lowercase hex digit. -/
def hexDigit (n : Nat) : Char :=
  if n < 10 then Char.ofNat (48 + n) else Char.ofNat (87 + n)

/-- Two-digit lowercase hex rendering of a byte. -/
def byteHex (b : Nat) : List Char :=
  [hexDigit (b / 16), hexDigit (b % 16)]

/-- Lowercase hex SHA-1 digest of a byte list (hashlib.sha1(...).hexdigest()). -/
def sha1Hex (msg : List Nat) : String :=
  String.mk ((sha1Bytes msg).map byteHex).flatten

/-- Chunk identifier from src/app.py lines 86-90: source, page, type default to
the empty string when absent; the hash is SHA-1 of the UTF-8 encoding of the
first 400 characters of the content. -/
def chunkId (content : String) (m : Metadata) : String :=
  (m.source.getD "") ++ "|p" ++ (m.page.getD "") ++ "|" ++ (m.type.getD "") ++ "|" ++
    sha1Hex (utf8Encode (String.mk (content.data.take 400)))

/-- Citation built at answer time (src/app.py lines 262-272): source and page
default to Unknown, type defaults to text when the metadata key is absent. -/
def citationOf (m : Metadata) : Citation :=
  { source := m.source.getD "Unknown"
    page := m.page.getD "Unknown"
    type := m.type.getD "text" }

/-- Upsert record passed to the vector index: identifier, document, metadata. -/
structure UpRec where
  id : String
  doc : String
  meta : Metadata
deriving DecidableEq

/-- Vector index state: insertion-ordered identifier list plus content lookup. -/
structure Collection where
  keys : List String
  store : String → Option (String × Metadata)

/-- Modelled from the spec: the Vector Index write is a batched upsert keyed on
the chunk identifier (re-ingestion with the same identifier overwrites; a new
identifier is appended). The backing chromadb collection code is not part of
this repository. -/
def addOne (c : Collection) (u : UpRec) : Collection :=
  { keys := if u.id ∈ c.keys then c.keys else c.keys ++ [u.id]
    store := fun i => if i = u.id then some (u.doc, u.meta) else c.store i }

/-- One collection.add call with a batch of records. -/
def addBatch (c : Collection) (b : List UpRec) : Collection :=
  b.foldl addOne c

/-- Freshly created, empty collection. -/
def emptyCollection : Collection :=
  { keys := [], store := fun _ => none }

/-- Parsed chunk record: chunk.get("content", "") and chunk.get("metadata", {})
with the metadata keys that the program reads. -/
structure ChunkRec where
  content : Option String
  metadata : Metadata
deriving DecidableEq

/-- Upsert record for a chunk (src/app.py lines 82-94). -/
def chunkUp (ch : ChunkRec) : UpRec :=
  { id := chunkId (ch.content.getD "") ch.metadata
    doc := ch.content.getD ""
    meta := ch.metadata }

/-- One line of chunks.jsonl as seen by the read loop: blank (skipped by the
strip check), malformed (json.loads raises), or a well-formed record. -/
inductive JsonLine
  | blank
  | malformed
  | record (ch : ChunkRec)
deriving DecidableEq

/-- Ingestion read loop of src/app.py lines 76-107: batch buffer of 50, flush
on reaching capacity, flush the remainder at end of stream; a malformed line
raises out of the loop, losing the pending batch. Returns the collection state
and either the total chunk count or the propagated parse error. -/
def ingestLoop (c : Collection) (batch : List UpRec) (n : Nat) :
    List JsonLine → Collection × Except String Nat
  | [] => (addBatch c batch, Except.ok n)
  | JsonLine.blank :: rest => ingestLoop c batch n rest
  | JsonLine.malformed :: _ => (c, Except.error "JSONDecodeError")
  | JsonLine.record ch :: rest =>
    let b := batch ++ [chunkUp ch]
    if 50 ≤ b.length then ingestLoop (addBatch c b) [] (n + 1) rest
    else ingestLoop c b (n + 1) rest

/-- Run ingestion over a chunk stream. -/
def ingest (c : Collection) (s : List JsonLine) : Collection × Except String Nat :=
  ingestLoop c [] 0 s

/-- Upserts actually applied by the read loop (flushed batches only). -/
def flushedUps : List JsonLine → List UpRec → List UpRec
  | [], b => b
  | JsonLine.blank :: rest, b => flushedUps rest b
  | JsonLine.malformed :: _, _ => []
  | JsonLine.record ch :: rest, b =>
    let b' := b ++ [chunkUp ch]
    if 50 ≤ b'.length then b' ++ flushedUps rest [] else flushedUps rest b'

/-- Client-side source filter of src/app.py lines 233-241: scan candidates in
rank order, keep matches, break once three are collected. -/
def collectFiltered (f : String) : List (String × Metadata) → List (String × Metadata) →
    List (String × Metadata)
  | [], acc => acc
  | (d, m) :: rest, acc =>
    if m.source = some f then
      let acc' := acc ++ [(d, m)]
      if 3 ≤ acc'.length then acc' else collectFiltered f rest acc'
    else collectFiltered f rest acc

/-- Filtered retrieval: over-fetch 10 candidates, then post-filter client side. -/
def retrieveFiltered (ranked : List (String × Metadata)) (f : String) :
    List (String × Metadata) :=
  collectFiltered f (ranked.take 10) []

/-- Results the question turn operates on: filtered path over-fetches 10 and
post-filters; unfiltered path asks the index for 3. -/
def resultsOf (ranked : List (String × Metadata)) : Option String →
    List (String × Metadata)
  | some f => retrieveFiltered ranked f
  | none => ranked.take 3

/-- One labeled context block (src/app.py line 267), written with the same
field values that the parallel citation carries. -/
def blockFor (i : Nat) (d : String) (cit : Citation) : String :=
  "\n[Source " ++ toString i ++ ": " ++ cit.source ++ " - Page " ++ cit.page ++
    " - " ++ cit.type ++ "]\n" ++ d ++ "\n"

/-- Context assembly loop of src/app.py lines 259-272: accumulate the context
string and the parallel citation list over the results, 1-based index. -/
def assembleGo (i : Nat) (ctx : String) (cites : List Citation) :
    List (String × Metadata) → String × List Citation
  | [] => (ctx, cites)
  | (d, m) :: rest =>
    assembleGo (i + 1) (ctx ++ blockFor i d (citationOf m)) (cites ++ [citationOf m]) rest

/-- Context and citations assembled from a result sequence. -/
def assembleCtx (rs : List (String × Metadata)) : String × List Citation :=
  assembleGo 1 "" [] rs

/-- Reference right-hand form of the assembled context: one block per result,
in order, with 1-based indices. -/
def joinBlocks (i : Nat) : List (String × Metadata) → String
  | [] => ""
  | (d, m) :: rest => blockFor i d (citationOf m) ++ joinBlocks (i + 1) rest

/-- Prompt template of src/app.py lines 275-282. -/
def buildPrompt (context q : String) : String :=
  "Based on the following document excerpts, answer the question accurately and comprehensively.\n\nDOCUMENTS:\n"
    ++ context ++ "\n\nQUESTION: " ++ q ++ "\n\nANSWER:"

/-- One generation-service request: model, max_tokens, and the (role, content)
message list (src/app.py lines 284-291). -/
structure ApiRequest where
  model : String
  max_tokens : Nat
  messages : List (String × String)
deriving DecidableEq

/-- The single request built for a question. -/
def mkRequest (context q : String) : ApiRequest :=
  { model := "claude-haiku-4-5-20251001"
    max_tokens := 1024
    messages := [("user", buildPrompt context q)] }

/-- Outcome of the external generation call: the extracted answer text, or the
transport or service exception message. -/
inductive GenOutcome
  | ok (answer : String)
  | fail (e : String)
deriving DecidableEq

/-- Error shown by the turn's except handler. -/
inductive TurnError
  | nameErrorFoundResults
  | generationError (e : String)
deriving DecidableEq

/-- What the turn displays to the user. -/
inductive Displayed
  | answered (answer : String) (sources : List Citation)
  | errorShown (err : TurnError)
deriving DecidableEq

/-- Session message: role, content, and the sources attached to assistant
messages. -/
structure Msg where
  role : String
  content : String
  sources : Option (List Citation)
deriving DecidableEq

/-- Result of one question turn: session history, requests issued to the
generation service, and what was displayed. -/
structure TurnOut where
  messages : List Msg
  requests : List ApiRequest
  outcome : Displayed
deriving DecidableEq

/-- Answer path of src/app.py lines 258-313: assemble context and citations,
send one request, then either append the assistant message or show the error
from the except handler (history keeps only the user message in that case). -/
def answerWith (msgs1 : List Msg) (q : String) (gen : GenOutcome)
    (rs : List (String × Metadata)) : TurnOut :=
  let ac := assembleCtx rs
  let req := mkRequest ac.1 q
  match gen with
  | GenOutcome.ok a =>
    { messages := msgs1 ++ [{ role := "assistant", content := a, sources := some ac.2 }]
      requests := [req]
      outcome := Displayed.answered a ac.2 }
  | GenOutcome.fail e =>
    { messages := msgs1
      requests := [req]
      outcome := Displayed.errorShown (TurnError.generationError e) }

/-- Canned answer of src/app.py line 295 for an empty unfiltered result set. -/
def noDocsAnswer : String :=
  "No relevant documents found for your question. Try asking about a different topic or select \x27All Documents\x27 to search broadly."

/-- One question turn (src/app.py lines 221-316). The user message is appended
before the search. On the filtered path with no matching candidate, the code
assigns answer and sources but never binds found_results, so the later read of
found_results raises NameError, which the except handler reports; nothing more
is appended. The ranked argument is the collection's similarity ordering for
the question, and gen is the generation service's response. -/
def processTurn (ranked : List (String × Metadata)) (filterOpt : Option String)
    (q : String) (gen : GenOutcome) (msgs : List Msg) : TurnOut :=
  let msgs1 := msgs ++ [{ role := "user", content := q, sources := none }]
  match filterOpt with
  | some f =>
    let filtered := retrieveFiltered ranked f
    if filtered.isEmpty then
      { messages := msgs1
        requests := []
        outcome := Displayed.errorShown TurnError.nameErrorFoundResults }
    else answerWith msgs1 q gen filtered
  | none =>
    let res := ranked.take 3
    if res.isEmpty then
      { messages := msgs1 ++ [{ role := "assistant", content := noDocsAnswer, sources := some [] }]
        requests := []
        outcome := Displayed.answered noDocsAnswer [] }
    else answerWith msgs1 q gen res

/-- Fixed per-question unit cost (src/app.py line 330: 0.002 dollars). -/
def unitCost : ℚ := 2 / 1000

/-- Session statistics of src/app.py lines 327-331: question count is the
number of user-role messages; estimated cost is that count times unitCost. -/
def getStats (msgs : List Msg) : Nat × ℚ :=
  let q := (msgs.filter (fun m => m.role == "user")).length
  (q, (q : ℚ) * unitCost)

/-- Substring test on character lists, for stating facts about prompt text. -/
def containsSub (needle : List Char) : List Char → Bool
  | [] => needle.isEmpty
  | c :: rest => needle.isPrefixOf (c :: rest) || containsSub needle rest

/-- Last value a batch writes for an identifier, later entries winning. -/
def lastVal : List UpRec → String → Option (String × Metadata)
  | [], _ => none
  | u :: us, i =>
    match lastVal us i with
    | some v => some v
    | none => if i = u.id then some (u.doc, u.meta) else none

theorem store_addBatch (b : List UpRec) : ∀ (c : Collection) (i : String),
    (addBatch c b).store i =
      match lastVal b i with
      | some v => some v
      | none => c.store i := by
  induction b with
  | nil => intro c i; rfl
  | cons u us ih =>
    intro c i
    show (addBatch (addOne c u) us).store i = _
    rw [ih]
    cases h : lastVal us i with
    | some v => simp [lastVal, h]
    | none =>
      by_cases hid : i = u.id
      · subst hid
        simp [lastVal, h, addOne]
      · simp [lastVal, h, addOne, hid]

theorem mem_keys_addOne (c : Collection) (u : UpRec) (i : String) (h : i ∈ c.keys) :
    i ∈ (addOne c u).keys := by
  simp only [addOne]
  split
  · exact h
  · exact List.mem_append_left _ h

theorem mem_keys_addOne_self (c : Collection) (u : UpRec) : u.id ∈ (addOne c u).keys := by
  simp only [addOne]
  split
  · assumption
  · exact List.mem_append_right _ (List.mem_singleton.mpr rfl)

theorem mem_keys_addBatch (b : List UpRec) : ∀ (c : Collection) (i : String),
    i ∈ c.keys → i ∈ (addBatch c b).keys := by
  induction b with
  | nil => intro c i h; exact h
  | cons u us ih => intro c i h; exact ih (addOne c u) i (mem_keys_addOne c u i h)

theorem mem_keys_addBatch_self (b : List UpRec) : ∀ (c : Collection) (u : UpRec),
    u ∈ b → u.id ∈ (addBatch c b).keys := by
  induction b with
  | nil => intro c u h; cases h
  | cons v us ih =>
    intro c u h
    cases List.mem_cons.mp h with
    | inl he =>
      subst he
      exact mem_keys_addBatch us (addOne c u) u.id (mem_keys_addOne_self c u)
    | inr ht => exact ih (addOne c v) u ht

theorem keys_addOne_of_mem (c : Collection) (u : UpRec) (h : u.id ∈ c.keys) :
    (addOne c u).keys = c.keys := by
  simp [addOne, h]

theorem keys_addBatch_of_all (b : List UpRec) : ∀ (c : Collection),
    (∀ u ∈ b, u.id ∈ c.keys) → (addBatch c b).keys = c.keys := by
  induction b with
  | nil => intro c _; rfl
  | cons u us ih =>
    intro c h
    have hu : u.id ∈ c.keys := h u (List.mem_cons_self u us)
    have hk : (addOne c u).keys = c.keys := keys_addOne_of_mem c u hu
    have : (addBatch (addOne c u) us).keys = (addOne c u).keys := by
      refine ih (addOne c u) ?_
      intro v hv
      rw [hk]
      exact h v (List.mem_cons_of_mem u hv)
    show (addBatch (addOne c u) us).keys = c.keys
    rw [this, hk]

theorem ingestLoop_fst (s : List JsonLine) : ∀ (c : Collection) (b : List UpRec) (n : Nat),
    (ingestLoop c b n s).1 = addBatch c (flushedUps s b) := by
  induction s with
  | nil => intro c b n; rfl
  | cons ln rest ih =>
    intro c b n
    cases ln with
    | blank => exact ih c b n
    | malformed => rfl
    | record ch =>
      simp only [ingestLoop, flushedUps]
      split
      · rw [ih]; simp [addBatch, List.foldl_append]
      · exact ih c (b ++ [chunkUp ch]) (n + 1)

theorem collectFiltered_sources (f : String) (l : List (String × Metadata)) :
    ∀ (acc : List (String × Metadata)),
    (∀ x ∈ acc, x.2.source = some f) →
    ∀ x ∈ collectFiltered f l acc, x.2.source = some f := by
  induction l with
  | nil => intro acc hacc x hx; exact hacc x hx
  | cons dm rest ih =>
    intro acc hacc x hx
    obtain ⟨d, m⟩ := dm
    by_cases hm : m.source = some f
    · simp only [collectFiltered, hm, if_pos] at hx
      have hacc' : ∀ y ∈ acc ++ [(d, m)], y.2.source = some f := by
        intro y hy
        cases List.mem_append.mp hy with
        | inl h1 => exact hacc y h1
        | inr h2 =>
          rw [List.mem_singleton.mp h2]
          exact hm
      split at hx
      · exact hacc' x hx
      · exact ih (acc ++ [(d, m)]) hacc' x hx
    · simp only [collectFiltered, hm, if_neg, if_false] at hx
      exact ih acc hacc x hx

theorem collectFiltered_length (f : String) (l : List (String × Metadata)) :
    ∀ (acc : List (String × Metadata)),
    acc.length < 3 → (collectFiltered f l acc).length ≤ 3 := by
  induction l with
  | nil => intro acc h; simp only [collectFiltered]; omega
  | cons dm rest ih =>
    intro acc h
    obtain ⟨d, m⟩ := dm
    by_cases hm : m.source = some f
    · simp only [collectFiltered, hm, if_pos]
      split
      · simp only [List.length_append, List.length_singleton]; omega
      · refine ih (acc ++ [(d, m)]) ?_
        rename_i hlt
        simp only [List.length_append, List.length_singleton] at hlt ⊢
        omega
    · simp only [collectFiltered, hm, if_neg, if_false]
      exact ih acc h

theorem collectFiltered_scan (f : String) (l : List (String × Metadata)) :
    ∀ (acc : List (String × Metadata)),
    ∃ t, collectFiltered f l acc = acc ++ t ∧ t.Sublist l := by
  induction l with
  | nil => intro acc; exact ⟨[], by simp [collectFiltered]⟩
  | cons dm rest ih =>
    intro acc
    obtain ⟨d, m⟩ := dm
    by_cases hm : m.source = some f
    · simp only [collectFiltered, hm, if_pos]
      split
      · exact ⟨[(d, m)], rfl, List.Sublist.cons₂ _ (List.nil_sublist rest)⟩
      · obtain ⟨t, heq, hsub⟩ := ih (acc ++ [(d, m)])
        refine ⟨(d, m) :: t, ?_, List.Sublist.cons₂ _ hsub⟩
        rw [heq, List.append_assoc]
        rfl
    · simp only [collectFiltered, hm, if_neg, if_false]
      obtain ⟨t, heq, hsub⟩ := ih acc
      exact ⟨t, heq, List.Sublist.cons _ hsub⟩

theorem assembleGo_eq (rs : List (String × Metadata)) : ∀ (i : Nat) (ctx : String)
    (cites : List Citation),
    assembleGo i ctx cites rs =
      (ctx ++ joinBlocks i rs, cites ++ rs.map (fun dm => citationOf dm.2)) := by
  induction rs with
  | nil =>
    intro i ctx cites
    simp [assembleGo, joinBlocks, String.append_empty]
  | cons dm rest ih =>
    intro i ctx cites
    obtain ⟨d, m⟩ := dm
    simp only [assembleGo, joinBlocks, List.map_cons, ih, String.append_assoc]
    rw [List.append_assoc]
    rfl

/-- Concrete metadata values used by concrete instantiations below. -/
def mW : Metadata := ⟨some "S", some "1", some "text"⟩

/-- Concrete metadata for a document named A. -/
def mA : Metadata := ⟨some "A", some "2", some "text"⟩

/-- Concrete metadata for a document named B. -/
def mB : Metadata := ⟨some "B", some "4", some "table"⟩

/-- Metadata with every key absent. -/
def noneMeta : Metadata := ⟨none, none, none⟩

/-- Concrete collection already holding identifier a. -/
def cW : Collection :=
  { keys := ["a"], store := fun i => if i = "a" then some ("olddoc", mW) else none }

/-- Concrete upsert record re-using identifier a with new content. -/
def uW : UpRec := { id := "a", doc := "newdoc", meta := mW }

/-- C1: ingesting the same chunk stream twice leaves the index with the same
identifiers, the same entry count, and the same stored entries as ingesting it
once; and an upsert whose identifier is already present overwrites the stored
entry without adding a key. -/
theorem spec_c1 :
    (∀ (s : List JsonLine) (c : Collection),
      (ingest (ingest c s).1 s).1.keys = (ingest c s).1.keys ∧
      (ingest (ingest c s).1 s).1.keys.length = (ingest c s).1.keys.length ∧
      ∀ i, (ingest (ingest c s).1 s).1.store i = (ingest c s).1.store i) ∧
    (∀ (c : Collection) (u : UpRec), u.id ∈ c.keys →
      (addOne c u).keys = c.keys ∧ (addOne c u).store u.id = some (u.doc, u.meta)) := by
  constructor
  · intro s c
    have hk : (ingest (ingest c s).1 s).1.keys = (ingest c s).1.keys := by
      rw [ingest, ingest, ingestLoop_fst, ingestLoop_fst]
      exact keys_addBatch_of_all _ _ (fun u hu => mem_keys_addBatch_self _ _ u hu)
    refine ⟨hk, by rw [hk], ?_⟩
    intro i
    rw [ingest, ingest, ingestLoop_fst, ingestLoop_fst]
    rw [store_addBatch (flushedUps s []) (addBatch c (flushedUps s [])) i]
    cases h : lastVal (flushedUps s []) i with
    | some v => rw [store_addBatch (flushedUps s []) c i, h]
    | none => rfl
  · intro c u h
    exact ⟨keys_addOne_of_mem c u h, by simp [addOne]⟩

/-- Witness for C1 at a concrete collection and record: the identifier a is
already present, and the upsert overwrites its value without a new key. -/
theorem spec_c1_witness :
    uW.id ∈ cW.keys ∧
    ((addOne cW uW).keys = cW.keys ∧ (addOne cW uW).store uW.id = some (uW.doc, uW.meta)) :=
  ⟨by decide, spec_c1.2 cW uW (by decide)⟩

/-- C2 counterexample: with one ranked candidate, no filter, and a failing
generation call, the turn reports a generation error yet session history has
grown by one (the user message), so the history length is not unchanged. -/
theorem spec_c2_cex :
    (processTurn [("doc passage", mW)] none "q" (GenOutcome.fail "transport error") []).outcome
        = Displayed.errorShown (TurnError.generationError "transport error") ∧
    (processTurn [("doc passage", mW)] none "q" (GenOutcome.fail "transport error") []).messages.length = 1 ∧
    ¬ (processTurn [("doc passage", mW)] none "q" (GenOutcome.fail "transport error") []).messages.length
        = ([] : List Msg).length := by
  refine ⟨rfl, rfl, ?_⟩
  decide

/-- C2 amended: when generation fails on a turn that reached the generation
call, the caller sees the generation error and no assistant message is
appended, but the user message appended at the start of the turn remains, so
history equals the prior history plus exactly that user message. -/
theorem spec_c2 : ∀ (ranked : List (String × Metadata)) (fo : Option String) (q e : String)
    (msgs : List Msg), resultsOf ranked fo ≠ [] →
    (processTurn ranked fo q (GenOutcome.fail e) msgs).messages =
      msgs ++ [{ role := "user", content := q, sources := none }] ∧
    (processTurn ranked fo q (GenOutcome.fail e) msgs).outcome =
      Displayed.errorShown (TurnError.generationError e) := by
  intro ranked fo q e msgs h
  cases fo with
  | none =>
    have h3 : (ranked.take 3).isEmpty = false := by
      simp only [List.isEmpty_eq_false]
      exact h
    constructor <;> simp [processTurn, h3, answerWith]
  | some f =>
    have h3 : (retrieveFiltered ranked f).isEmpty = false := by
      simp only [List.isEmpty_eq_false]
      exact h
    constructor <;> simp [processTurn, h3, answerWith]

/-- Witness for C2 at a concrete turn. -/
theorem spec_c2_witness :
    resultsOf [("doc passage", mW)] none ≠ [] ∧
    ((processTurn [("doc passage", mW)] none "q" (GenOutcome.fail "boom") []).messages =
      [] ++ [{ role := "user", content := "q", sources := none }] ∧
     (processTurn [("doc passage", mW)] none "q" (GenOutcome.fail "boom") []).outcome =
      Displayed.errorShown (TurnError.generationError "boom")) :=
  ⟨by decide, spec_c2 [("doc passage", mW)] none "q" "boom" [] (by decide)⟩

/-- C3: the filtered path with zero matching candidates does not surface the
no-relevant-information answer; the unbound found_results read raises
NameError, the except handler shows a generic error, and only the user message
is recorded. Evaluated at a concrete failing input. -/
theorem spec_c3 :
    processTurn [("passage about A", mA)] (some "B") "What does B say?" (GenOutcome.ok "x") []
      = { messages := [{ role := "user", content := "What does B say?", sources := none }]
          requests := []
          outcome := Displayed.errorShown TurnError.nameErrorFoundResults } := by
  decide

/-- C4: filtered retrieval over-fetches ten candidates, scans them in rank
order (the result is an order-preserving sublist of the over-fetched set),
keeps only results whose metadata source equals the filter, and returns at
most three results. -/
theorem spec_c4 : ∀ (ranked : List (String × Metadata)) (f : String),
    retrieveFiltered ranked f = collectFiltered f (ranked.take 10) [] ∧
    (∀ x ∈ retrieveFiltered ranked f, x.2.source = some f) ∧
    (retrieveFiltered ranked f).length ≤ 3 ∧
    (retrieveFiltered ranked f).Sublist (ranked.take 10) := by
  intro ranked f
  refine ⟨rfl, ?_, ?_, ?_⟩
  · exact collectFiltered_sources f (ranked.take 10) [] (by intro x hx; cases hx)
  · exact collectFiltered_length f (ranked.take 10) [] (by simp)
  · obtain ⟨t, heq, hsub⟩ := collectFiltered_scan f (ranked.take 10) []
    rw [retrieveFiltered, heq]
    simpa using hsub

/-- Witness for C4 at a concrete ranked list and filter. -/
theorem spec_c4_witness :
    ("b-doc", mB) ∈ retrieveFiltered [("a-doc", mA), ("b-doc", mB)] "B" ∧ mB.source = some "B" :=
  ⟨by decide, (spec_c4 [("a-doc", mA), ("b-doc", mB)] "B").2.1 ("b-doc", mB) (by decide)⟩

set_option maxRecDepth 1000000 in
/-- C5: the chunk identifier is the string source|p page|type|hash, where hash
is the hex SHA-1 digest of the UTF-8 encoding of the first 400 characters of
the content (the embedded SHA-1 is validated on the standard abc and empty
test vectors); the identifier depends only on the metadata and that prefix, so
identical inputs always give the identical identifier. -/
theorem spec_c5 :
    (∀ (content : String) (m : Metadata),
      chunkId content m = (m.source.getD "") ++ "|p" ++ (m.page.getD "") ++ "|" ++
        (m.type.getD "") ++ "|" ++ sha1Hex (utf8Encode (String.mk (content.data.take 400)))) ∧
    (∀ (c1 c2 : String) (m : Metadata),
      c1.data.take 400 = c2.data.take 400 → chunkId c1 m = chunkId c2 m) ∧
    sha1Hex (utf8Encode "abc") = "a9993e364706816aba3e25717850c26c9cd0d89d" ∧
    sha1Hex (utf8Encode "") = "da39a3ee5e6b4b0d3255bfef95601890afd80709" ∧
    chunkId "abc" ⟨some "doc", some "1", some "text"⟩
      = "doc|p1|text|a9993e364706816aba3e25717850c26c9cd0d89d" := by
  refine ⟨fun content m => rfl, fun c1 c2 m h => by simp only [chunkId, h], ?_, ?_, ?_⟩ <;>
    decide

set_option maxRecDepth 1000000 in
/-- Witness for C5: two contents sharing their first 400 characters receive
the same identifier. -/
theorem spec_c5_witness :
    (String.mk (List.replicate 401 'a')).data.take 400
      = (String.mk (List.replicate 402 'a')).data.take 400 ∧
    chunkId (String.mk (List.replicate 401 'a')) mW
      = chunkId (String.mk (List.replicate 402 'a')) mW :=
  ⟨by decide, spec_c5.2.1 (String.mk (List.replicate 401 'a'))
      (String.mk (List.replicate 402 'a')) mW (by decide)⟩

/-- C6: a malformed line does not get skipped; the parse error propagates out
of the read loop, so the run aborts and the preceding well-formed record (in
the never-flushed pending batch) is not indexed. Evaluated at a stream of one
good record followed by one malformed line, from an empty collection. -/
theorem spec_c6 :
    (ingest emptyCollection [JsonLine.record ⟨some "good chunk", mW⟩, JsonLine.malformed]).2
        = Except.error "JSONDecodeError" ∧
    (ingest emptyCollection [JsonLine.record ⟨some "good chunk", mW⟩, JsonLine.malformed]).1.keys
        = [] := by
  exact ⟨rfl, rfl⟩

/-- C7: context assembly yields exactly one citation per passage, in order:
the citation list is the map of citationOf over the results (same length), and
the context text is the in-order concatenation of one labeled block per
result, the i-th block written from the same citation fields. -/
theorem spec_c7 : ∀ rs : List (String × Metadata),
    (assembleCtx rs).2.length = rs.length ∧
    (assembleCtx rs).2 = rs.map (fun dm => citationOf dm.2) ∧
    (assembleCtx rs).1 = joinBlocks 1 rs := by
  intro rs
  have h := assembleGo_eq rs 1 "" []
  simp only [assembleCtx]
  rw [h]
  simp [String.empty_append]

/-- C8 counterexample: the prompt built for a concrete context and question is
exactly the template below, which contains no instruction to answer strictly
from the supplied context, none about concrete figures, and none to state when
the answer is not covered (it never even mentions the words strict, context,
figure, or not covered). -/
theorem spec_c8_cex :
    buildPrompt "CTX" "Q" = "Based on the following document excerpts, answer the question accurately and comprehensively.\n\nDOCUMENTS:\nCTX\n\nQUESTION: Q\n\nANSWER:" ∧
    containsSub "strict".data (buildPrompt "CTX" "Q").data = false ∧
    containsSub "context".data (buildPrompt "CTX" "Q").data = false ∧
    containsSub "figure".data (buildPrompt "CTX" "Q").data = false ∧
    containsSub "not covered".data (buildPrompt "CTX" "Q").data = false := by
  refine ⟨rfl, ?_, ?_, ?_, ?_⟩ <;> decide

/-- C8 amended: whenever retrieval yields results, exactly one request is sent
for the question, as a single user-role message whose content is the fixed
template around the assembled context and the question; the template asks only
for an accurate and comprehensive answer based on the excerpts. -/
theorem spec_c8 :
    (∀ (ranked : List (String × Metadata)) (fo : Option String) (q : String)
      (gen : GenOutcome) (msgs : List Msg), resultsOf ranked fo ≠ [] →
      (processTurn ranked fo q gen msgs).requests =
        [mkRequest (assembleCtx (resultsOf ranked fo)).1 q]) ∧
    (∀ context q, mkRequest context q =
      { model := "claude-haiku-4-5-20251001", max_tokens := 1024,
        messages := [("user", buildPrompt context q)] }) := by
  constructor
  · intro ranked fo q gen msgs h
    cases fo with
    | none =>
      have h3 : (ranked.take 3).isEmpty = false := by
        simp only [List.isEmpty_eq_false]
        exact h
      cases gen <;> simp [processTurn, h3, answerWith, resultsOf]
    | some f =>
      have h3 : (retrieveFiltered ranked f).isEmpty = false := by
        simp only [List.isEmpty_eq_false]
        exact h
      cases gen <;> simp [processTurn, h3, answerWith, resultsOf]
  · intro context q
    rfl

/-- Witness for C8 at a concrete turn. -/
theorem spec_c8_witness :
    resultsOf [("doc passage", mW)] none ≠ [] ∧
    (processTurn [("doc passage", mW)] none "q" (GenOutcome.ok "a") []).requests =
      [mkRequest (assembleCtx (resultsOf [("doc passage", mW)] none)).1 "q"] :=
  ⟨by decide, spec_c8.1 [("doc passage", mW)] none "q" (GenOutcome.ok "a") [] (by decide)⟩

/-- C9: the reported question count is the number of user-role messages and
the estimated cost is that count times the fixed unit cost; a successful turn
appends exactly one user and one assistant message, and a history of three
successful questions reports a count of 3 and a cost of 3 times the unit
cost. -/
theorem spec_c9 :
    (∀ msgs : List Msg,
      getStats msgs = ((msgs.filter (fun m => m.role == "user")).length,
        ((msgs.filter (fun m => m.role == "user")).length : ℚ) * unitCost)) ∧
    (∀ (ranked : List (String × Metadata)) (q a : String) (msgs : List Msg),
      ranked.take 3 ≠ [] →
      (processTurn ranked none q (GenOutcome.ok a) msgs).messages =
        msgs ++ [{ role := "user", content := q, sources := none },
          { role := "assistant", content := a,
            sources := some (assembleCtx (ranked.take 3)).2 }]) ∧
    (∀ (q1 a1 q2 a2 q3 a3 : String) (s1 s2 s3 : List Citation),
      getStats [{ role := "user", content := q1, sources := none },
        { role := "assistant", content := a1, sources := some s1 },
        { role := "user", content := q2, sources := none },
        { role := "assistant", content := a2, sources := some s2 },
        { role := "user", content := q3, sources := none },
        { role := "assistant", content := a3, sources := some s3 }]
      = (3, 3 * unitCost)) := by
  refine ⟨fun msgs => rfl, ?_, ?_⟩
  · intro ranked q a msgs h
    have h3 : (ranked.take 3).isEmpty = false := by
      simp only [List.isEmpty_eq_false]
      exact h
    simp [processTurn, h3, answerWith]
  · intro q1 a1 q2 a2 q3 a3 s1 s2 s3
    have hu : (("user" : String) == "user") = true := rfl
    have ha : (("assistant" : String) == "user") = false := rfl
    simp [getStats, List.filter, hu, ha]

/-- Witness for C9 at a concrete successful turn. -/
theorem spec_c9_witness :
    ([("doc passage", mW)].take 3 ≠ []) ∧
    (processTurn [("doc passage", mW)] none "q" (GenOutcome.ok "ans") []).messages =
      [] ++ [{ role := "user", content := "q", sources := none },
        { role := "assistant", content := "ans",
          sources := some (assembleCtx ([("doc passage", mW)].take 3)).2 }] :=
  ⟨by decide, spec_c9.2.1 [("doc passage", mW)] "q" "ans" [] (by decide)⟩

/-- C10: a missing metadata field gets different defaults at the two read
sites: the stored identifier uses the empty string for a missing source, page,
or type, while the answer-time citation defaults source and page to Unknown
and type to text. -/
theorem spec_c10 : ∀ (content : String) (m : Metadata),
    (m.source = none →
      chunkId content m = "" ++ "|p" ++ (m.page.getD "") ++ "|" ++ (m.type.getD "") ++ "|" ++
        sha1Hex (utf8Encode (String.mk (content.data.take 400))) ∧
      (citationOf m).source = "Unknown") ∧
    (m.page = none →
      chunkId content m = (m.source.getD "") ++ "|p" ++ "" ++ "|" ++ (m.type.getD "") ++ "|" ++
        sha1Hex (utf8Encode (String.mk (content.data.take 400))) ∧
      (citationOf m).page = "Unknown") ∧
    (m.type = none →
      chunkId content m = (m.source.getD "") ++ "|p" ++ (m.page.getD "") ++ "|" ++ "" ++ "|" ++
        sha1Hex (utf8Encode (String.mk (content.data.take 400))) ∧
      (citationOf m).type = "text") := by
  intro content m
  refine ⟨fun h => ⟨?_, ?_⟩, fun h => ⟨?_, ?_⟩, fun h => ⟨?_, ?_⟩⟩ <;>
    simp [chunkId, citationOf, h]

/-- Witness for C10 at all-absent metadata and empty content. -/
theorem spec_c10_witness :
    noneMeta.source = none ∧
    (chunkId "" noneMeta = "" ++ "|p" ++ (noneMeta.page.getD "") ++ "|" ++
        (noneMeta.type.getD "") ++ "|" ++
        sha1Hex (utf8Encode (String.mk ("".data.take 400))) ∧
      (citationOf noneMeta).source = "Unknown") :=
  ⟨rfl, (spec_c10 "" noneMeta).1 rfl⟩
